import Mathlib

/-!
Shallow embedding of the step interpreter and execution engine of
`extract_steps2.py` from the project_generator repository.

Strings are modelled by Lean `String` and processed over their character
lists.  The Python regular expressions are embedded as explicit scanners
that follow the backtracking semantics of `re.findall` / `re.search` for
the concrete patterns appearing in the source.  Process spawning, the
interactive confirmation prompt and file writes are modelled by an
environment `Env` of oracles, and the runner state (`RunState`) carries
ghost traces of the spawned commands and of the files written.
-/

/-- Number of leading characters of `l` satisfying `p`. -/
def countWhile (p : Char → Bool) (l : List Char) : Nat := (l.takeWhile p).length

/-- Python `str.strip()`: drop whitespace from both ends. -/
def strip (l : List Char) : List Char :=
  ((l.dropWhile Char.isWhitespace).reverse.dropWhile Char.isWhitespace).reverse

/-- Split a character list at newline characters, keeping empty segments
(the plain splitting pass underlying Python `str.splitlines()`). -/
def splitNl : List Char → List (List Char)
  | [] => [[]]
  | c :: cs =>
    if c = '\n' then [] :: splitNl cs
    else
      match splitNl cs with
      | [] => [[c]]
      | h :: t => (c :: h) :: t

/-- Python `str.splitlines()` for newline-separated text: the empty string
yields no lines, and a trailing newline does not produce a final empty
line. -/
def splitlines (l : List Char) : List (List Char) :=
  match l with
  | [] => []
  | _ => if l.getLast? = some '\n' then (splitNl l).dropLast else splitNl l

/-- Index of the first occurrence of `pat` in `l`, if any (the scanning
loop of the `re` module: try each start position from the left). -/
def findOcc (pat : List Char) : List Char → Option Nat
  | [] => if pat.isPrefixOf ([] : List Char) then some 0 else none
  | c :: cs => if pat.isPrefixOf (c :: cs) then some 0 else (findOcc pat cs).map (· + 1)

/-- Python `str.replace("mkdir", "")`: delete every occurrence of the
literal `mkdir`, scanning left to right. -/
def stripMkdir : List Char → List Char
  | 'm' :: 'k' :: 'd' :: 'i' :: 'r' :: rest => stripMkdir rest
  | c :: rest => c :: stripMkdir rest
  | [] => []

/-- Wrap a character list back into a `String`. -/
def strOfList (l : List Char) : String := String.mk l

/-- Substring test on character lists: does `pat` occur inside `l`? -/
def isInfixOfL (pat : List Char) : List Char → Bool
  | [] => pat.isPrefixOf ([] : List Char)
  | c :: cs => pat.isPrefixOf (c :: cs) || isInfixOfL pat cs

/-- Python `pat in s` (substring test). -/
def hasSubstr (s pat : String) : Bool := isInfixOfL pat.data s.data

/-- Python `s.startswith(pat)`. -/
def startsWithStr (s pat : String) : Bool := pat.data.isPrefixOf s.data

/-- Python `s[n:]`. -/
def dropStr (s : String) (n : Nat) : String := strOfList (s.data.drop n)

/-- Python `s.strip()` on `String`. -/
def stripStr (s : String) : String := strOfList (strip s.data)

/-- Python `s.lower()`. -/
def lowerStr (s : String) : String := strOfList (s.data.map Char.toLower)

/-! ### The step parser: `extract_steptitles`

Embeds the DOTALL findall of the pattern
`(\*\*Step \d+: .+?\*\*)\n(.*?)(?=\n\*\*Step \d+:|$)`.  A match needs the
literal `**Step `, one or more digits, the literal `: `, a shortest
non-empty title text closed by `**` followed by a newline, and then a
shortest (possibly empty) body ending at the first position where either
the lookahead `\n\*\*Step \d+:` holds or the `$` anchor holds (end of
text, or just before a final newline). -/

def stepMarker : List Char := "**Step ".data

/-- The lookahead `\n\*\*Step \d+:` of the step pattern, tested at the
front of the remaining text `r`. -/
def stepLookahead (r : List Char) : Bool :=
  match r with
  | '\n' :: r2 =>
    stepMarker.isPrefixOf r2 &&
      (let d := countWhile Char.isDigit (r2.drop 7)
       decide (1 ≤ d) && ((r2.drop (7 + d)).head? == some ':'))
  | _ => false

/-- Length taken by the lazy body `(.*?)`: the least number of characters
after which the lookahead or the `$` anchor holds. -/
def bodyLen : List Char → Nat
  | [] => 0
  | c :: cs =>
    if stepLookahead (c :: cs) then 0
    else if c = '\n' ∧ cs = [] then 0
    else 1 + bodyLen cs

/-- Least `i ≥ 1` such that `**` followed by a newline starts at offset
`i` of `l` (the lazy `.+?\*\*` of the title, which must be followed by
`\n`). -/
def findStarStarNl (l : List Char) : Option Nat :=
  (findOcc "**\n".data (l.drop 1)).map (· + 1)

/-- Attempt the step pattern at the front of `l`; on success return the
title group, the body group and the total number of characters consumed
by the match. -/
def tryStepAt (l : List Char) : Option (List Char × List Char × Nat) :=
  if stepMarker.isPrefixOf l then
    let d := countWhile Char.isDigit (l.drop 7)
    if d = 0 then none
    else if (": ".data).isPrefixOf (l.drop (7 + d)) then
      match findStarStarNl (l.drop (7 + d + 2)) with
      | none => none
      | some i =>
        let titleLen := 7 + d + 2 + i + 2
        let b := l.drop (titleLen + 1)
        let blen := bodyLen b
        some (l.take titleLen, b.take blen, titleLen + 1 + blen)
    else none
  else none

/-- `re.findall` scanning loop for the step pattern (fuelled; the fuel is
instantiated with the text length plus one, enough since every scanning
step consumes at least one character). -/
def stepMatches : Nat → List Char → List (List Char × List Char)
  | 0, _ => []
  | fuel+1, l =>
    match findOcc stepMarker l with
    | none => []
    | some o =>
      match tryStepAt (l.drop o) with
      | none => stepMatches fuel (l.drop (o + 1))
      | some (t, b, consumed) => (t, b) :: stepMatches fuel (l.drop (o + consumed))

/-- `extract_steptitles` of the source: one stripped title and one
stripped body per regex match. -/
def extract_steptitles (text : String) : List String × List String :=
  let ms := stepMatches (text.data.length + 1) text.data
  (ms.map (fun m => strOfList (strip m.1)), ms.map (fun m => strOfList (strip m.2)))

/-! ### Fenced blocks: `extract_code_snippets`

Embeds the DOTALL findall of the pattern matching an opening triple
backtick, a shortest (possibly empty) capture, and the next triple
backtick. -/

def fenceMarker : List Char := "```".data

/-- `re.findall` scanning loop for fenced blocks (fuelled). -/
def snippetMatches : Nat → List Char → List (List Char)
  | 0, _ => []
  | fuel+1, l =>
    match findOcc fenceMarker l with
    | none => []
    | some o =>
      match findOcc fenceMarker (l.drop (o + 3)) with
      | none => snippetMatches fuel (l.drop (o + 1))
      | some c =>
        (l.drop (o + 3)).take c :: snippetMatches fuel (l.drop (o + 3 + c + 3))

/-- `extract_code_snippets` of the source: one snippet list per step
detail. -/
def extract_code_snippets (step_details : List String) : List (List String) :=
  step_details.map (fun d => (snippetMatches (d.data.length + 1) d.data).map strOfList)

/-! ### Filenames: `extract_filename`

Embeds the search for the pattern whose first alternative is a run of
word characters, hyphens and slashes, then a slash, then a run of word
characters and hyphens, a dot and a word run, and whose second
alternative is a run of word characters and hyphens, a dot and a word
run; both are wrapped in word boundaries.  The leftmost match wins; at a
given start the slash alternative is tried, with its backtracking, before
the plain `name.ext` alternative.  The trailing boundary always holds
after a greedy word run, so it needs no test. -/

def isWordChar (c : Char) : Bool := c.isAlphanum || c = '_'

def isCls1 (c : Char) : Bool := isWordChar c || c = '-' || c = '/'

def isCls2 (c : Char) : Bool := isWordChar c || c = '-'

/-- Backtracking for the `name.ext` shape given the length of the greedy
class run: try the dot after `m` class characters for `m` descending. -/
def tryDot : Nat → List Char → Option Nat
  | 0, _ => none
  | m+1, l =>
    if l.get? (m+1) = some '.' then
      if 1 ≤ countWhile isWordChar (l.drop (m+2)) then
        some ((m+1) + 1 + countWhile isWordChar (l.drop (m+2)))
      else tryDot m l
    else tryDot m l

/-- Match the `name.ext` shape at the front of `l`, returning the matched
length. -/
def matchDotToken (l : List Char) : Option Nat := tryDot (countWhile isCls2 l) l

/-- Backtracking for the slash alternative: try the slash after `k`
class characters for `k` descending. -/
def tryASlash : Nat → List Char → Option Nat
  | 0, _ => none
  | k+1, l =>
    if l.get? (k+1) = some '/' then
      match matchDotToken (l.drop (k+2)) with
      | some n => some ((k+1) + 1 + n)
      | none => tryASlash k l
    else tryASlash k l

/-- Attempt the full alternation at the front of `l`, returning the
matched text. -/
def tryMatch (l : List Char) : Option (List Char) :=
  match tryASlash (countWhile isCls1 l) l with
  | some n => some (l.take n)
  | none => (matchDotToken l).map (fun n => l.take n)

/-- `re.search` for the filename pattern: scan left to right, attempting
the pattern at every word-boundary position (`prevWord` carries whether
the previous character was a word character). -/
def fnSearch : Bool → List Char → Option (List Char)
  | _, [] => none
  | prevWord, c :: cs =>
    if prevWord != isWordChar c then
      match tryMatch (c :: cs) with
      | some m => some m
      | none => fnSearch (isWordChar c) cs
    else fnSearch (isWordChar c) cs

/-- `extract_filename` of the source. -/
def extract_filename (text : String) : Option String :=
  (fnSearch false text.data).map strOfList

/-- `re.findall` for the filename pattern (fuelled): all non-overlapping
matches, left to right.  Used to compare the source (first match) with
the specified choice (last match). -/
def fnMatches : Nat → Bool → List Char → List (List Char)
  | 0, _, _ => []
  | _+1, _, [] => []
  | fuel+1, prevWord, c :: cs =>
    if prevWord != isWordChar c then
      match tryMatch (c :: cs) with
      | some m =>
        m :: fnMatches fuel
          (match m.getLast? with | some ch => isWordChar ch | none => prevWord)
          ((c :: cs).drop m.length)
      | none => fnMatches fuel (isWordChar c) cs
    else fnMatches fuel (isWordChar c) cs

/-- Modelled from the spec: the filename rule as the claim states it, the
last path-like or `name.ext`-like token of the step title. -/
def claim_last_filename (text : String) : Option String :=
  ((fnMatches (text.data.length + 1) false text.data).getLast?).map strOfList

/-! ### Commands: `extract_bash_commands`

Embeds the findall of the pattern `bash\n([\s\S]+?)(?=\n\s*\n|$)`: each
occurrence of the literal `bash` followed by a newline opens a region of
at least one character, closed at the first position where a blank line
follows (`\n\s*\n`) or the `$` anchor holds.  Each region is split into
lines, the lines are stripped, and blank lines are dropped. -/

def bashMarker : List Char := "bash\n".data

/-- The lookahead `\n\s*\n` tested at the front of `r`. -/
def blankLookahead (r : List Char) : Bool :=
  match r with
  | [] => false
  | c :: r2 => decide (c = '\n') && (r2.takeWhile Char.isWhitespace).contains '\n'

/-- Number of further characters taken by the lazy capture after its
first character: least count after which the lookahead or `$` holds. -/
def stopLen : List Char → Nat
  | [] => 0
  | c :: cs =>
    if blankLookahead (c :: cs) then 0
    else if c = '\n' ∧ cs = [] then 0
    else 1 + stopLen cs

/-- `re.findall` scanning loop for the bash pattern (fuelled). -/
def bashMatches : Nat → List Char → List (List Char)
  | 0, _ => []
  | fuel+1, l =>
    match findOcc bashMarker l with
    | none => []
    | some o =>
      match l.drop (o + 5) with
      | [] => bashMatches fuel (l.drop (o + 1))
      | c :: cs =>
        (c :: cs).take (1 + stopLen cs) :: bashMatches fuel (l.drop (o + 5 + 1 + stopLen cs))

/-- `extract_bash_commands` of the source. -/
def extract_bash_commands (text : String) : List String :=
  ((bashMatches (text.data.length + 1) text.data).flatMap
    (fun m => ((splitlines m).map strip).filter (fun x => !x.isEmpty))).map strOfList

/-- `delete_first_line` of the source: remove the first line (the fence
language tag) and also return it. -/
def delete_first_line (text : String) : String × Option String :=
  match splitlines text.data with
  | [] => ("", none)
  | h :: t => (strOfList (List.intercalate "\n".data t), some (strOfList h))

/-! ### The execution model

`run_command` spawns a shell process and returns the pair
(stderr, accumulated stdout); a command containing `python` first asks
the operator for permission and, when declined, returns the pair
(None, None) without spawning anything; an exception yields its message
in place of stderr.  The environment `Env` supplies the oracle answers:
the confirmation, the process outcome, and whether a file write
succeeds.  The list component of the result is a ghost trace of the
processes spawned by the call. -/

/-- Outcome of one process run: captured stderr and stdout, or the
message of a raised exception. -/
inductive ExecResult where
  | ok (stderr : String) (output : String)
  | exn (msg : String)

/-- The oracles standing for the interactive operator, the subprocess
module and the filesystem. -/
structure Env where
  confirm : String → Bool
  exec : String → ExecResult
  writeOk : String → Bool

/-- Python truthiness of the error component: not None and not the empty
string. -/
def errTruthy : Option String → Bool
  | none => false
  | some s => decide (s ≠ "")

/-- Interpolated text of an optional string (only used on some values). -/
def optStr : Option String → String
  | none => ""
  | some s => s

/-- `run_command` of the source. -/
def run_command (env : Env) (command : String) : (Option String × Option String) × List String :=
  if hasSubstr command "python" && !env.confirm command then ((none, none), [])
  else
    match env.exec command with
    | ExecResult.ok stderr output => ((some stderr, some output), [command])
    | ExecResult.exn msg => ((some msg, none), [command])

/-- The mutable state threaded by `run_commands`: the tracked current
directory, the working directory of the host process (kept in sync by
`os.chdir`), the accumulated error log, the inferred project root name,
the `x` flag guarding the inference, and ghost traces of the spawned
commands and written files. -/
structure RunState where
  current_directory : String
  host_cwd : String
  errors : String
  created_directory_name : Option String
  x : Nat
  spawned : List String
  files : List (String × String)

/-- Does the path end with a slash? (used by the join rule). -/
def endsWithSlash (a : String) : Bool := a.data.getLast? == some '/'

/-- `os.path.join` for POSIX paths, two arguments. -/
def pathJoin (a b : String) : String :=
  if startsWithStr b "/" then b
  else if a = "" then b
  else if endsWithSlash a then a ++ b
  else a ++ "/" ++ b

/-- Lines 184 to 186 of the source, run at the end of a loop iteration
that was not skipped by `continue`: when `x` is zero and the root name is
still unknown, set it to the first command of the current command list
with `mkdir` deleted and the result stripped. -/
def infer_root_update (c0 : String) (st : RunState) : RunState :=
  if st.x = 0 ∧ st.created_directory_name = none then
    { st with created_directory_name := some (stripStr (strOfList (stripMkdir c0.data))),
              x := 1 }
  else st

/-- The guard of lines 177 to 180: the command contains `pat`, the root
name is known, and the command contains the root name. -/
def guardHit (pat : String) (cdn : Option String) (command : String) : Bool :=
  hasSubstr command pat &&
    (match cdn with
     | none => false
     | some n => hasSubstr command n)

/-- One iteration of the inner command loop of `run_commands` (lines 170
to 186): a command starting with `cd ` only updates the tracked directory
and the host working directory; a command hitting one of the two
root-name guards is skipped; any other command is dispatched to
`run_command`, and a truthy error is appended to the log tagged with the
1-based step index. -/
def step_command (env : Env) (i : Nat) (c0 : String) (st : RunState) (command : String) :
    RunState :=
  if startsWithStr command "cd " then
    let newdir := pathJoin st.current_directory (stripStr (dropStr command 2))
    infer_root_update c0 { st with current_directory := newdir, host_cwd := newdir }
  else if guardHit "mkdir" st.created_directory_name command then st
  else if guardHit "cd" st.created_directory_name command then st
  else
    infer_root_update c0
      (let r := run_command env command
       let st1 := { st with spawned := st.spawned ++ r.2 }
       if errTruthy r.1.1 then
         { st1 with errors := st1.errors ++ "Error in step " ++ toString (i + 1) ++ ": "
             ++ optStr r.1.1 ++ "\n" }
       else st1)

/-- The block classification of line 168: the first line of the block is
truthy (present and non-empty), and the step title or that line contains
`bash`, case-insensitively. -/
def is_command_block (step_title : String) (keyword : Option String) : Bool :=
  match keyword with
  | none => false
  | some k =>
    decide (k ≠ "") && (hasSubstr (lowerStr step_title) "bash" || hasSubstr (lowerStr k) "bash")

/-- One iteration of the snippet loop of `run_commands` (lines 166 to
194): a command block is expanded into commands and folded through
`step_command`; a file block is written to the join of the tracked
directory and the filename extracted from the step title, with the first
line of the block removed, a failure being logged; a file block whose
title yields no filename does nothing. -/
def step_snippet (env : Env) (i : Nat) (step_title : String) (st : RunState)
    (code_snippet : String) : RunState :=
  if is_command_block step_title (delete_first_line code_snippet).2 then
    match extract_bash_commands code_snippet with
    | [] => st
    | c0 :: rest => (c0 :: rest).foldl (step_command env i c0) st
  else
    match extract_filename step_title with
    | none => st
    | some filename =>
      if env.writeOk (pathJoin st.current_directory filename) then
        { st with files := st.files ++ [(pathJoin st.current_directory filename,
            (delete_first_line code_snippet).1)] }
      else
        { st with errors := st.errors ++ "Error in step " ++ toString (i + 1)
            ++ ": Failed to create file " ++ filename ++ "\n" }

/-- The state at entry of `run_commands`: the tracked directory is the
process working directory, the error log is empty, the root name is the
callers seed, and `x` is zero. -/
def initState (cdn0 : Option String) (cwd0 : String) : RunState :=
  { current_directory := cwd0, host_cwd := cwd0, errors := "",
    created_directory_name := cdn0, x := 0, spawned := [], files := [] }

/-- `run_commands` of the source, as a state transformer: iterate the
steps in order and, inside each step, its snippets in order.  The snippet
list of step `i` is `code_snippets[i]` (in the pipeline of
`final_command` this index is always in bounds; out of bounds it is
modelled as the empty list). -/
def run_commands_state (env : Env) (step_titles : List String)
    (code_snippets : List (List String)) (cdn0 : Option String) (cwd0 : String) : RunState :=
  step_titles.enum.foldl
    (fun st p => ((code_snippets.get? p.1).getD []).foldl (step_snippet env p.1 p.2) st)
    (initState cdn0 cwd0)

/-- The pair returned by `run_commands`: the error log and the (possibly
newly inferred) root directory name. -/
def run_commands (env : Env) (step_titles : List String)
    (code_snippets : List (List String)) (cdn0 : Option String) (cwd0 : String) :
    String × Option String :=
  ((run_commands_state env step_titles code_snippets cdn0 cwd0).errors,
   (run_commands_state env step_titles code_snippets cdn0 cwd0).created_directory_name)

/-- `final_command` of the source: parse, extract snippets, run, return
the error log (the root name seed starts as None). -/
def final_command (env : Env) (cwd0 : String) (text : String) : String :=
  (run_commands env (extract_steptitles text).1
    (extract_code_snippets (extract_steptitles text).2) none cwd0).1

/-- An environment in which every command succeeds silently and every
write succeeds. -/
def envOk : Env :=
  { confirm := fun _ => true, exec := fun _ => ExecResult.ok "" "", writeOk := fun _ => true }

/-- An environment in which every spawned command produces stderr text. -/
def envErr : Env :=
  { confirm := fun _ => true, exec := fun _ => ExecResult.ok "boom" "out", writeOk := fun _ => true }

/-- An environment in which the operator declines every confirmation. -/
def envNo : Env :=
  { confirm := fun _ => false, exec := fun _ => ExecResult.ok "" "", writeOk := fun _ => true }

/-! ### Helper lemmas -/

/-- The root-name inference step leaves the tracked directory unchanged. -/
theorem infer_root_update_dir (c0 : String) (st : RunState) :
    (infer_root_update c0 st).current_directory = st.current_directory := by
  unfold infer_root_update; split <;> rfl

/-- The root-name inference step leaves the host directory unchanged. -/
theorem infer_root_update_host (c0 : String) (st : RunState) :
    (infer_root_update c0 st).host_cwd = st.host_cwd := by
  unfold infer_root_update; split <;> rfl

/-- The root-name inference step leaves the error log unchanged. -/
theorem infer_root_update_errors (c0 : String) (st : RunState) :
    (infer_root_update c0 st).errors = st.errors := by
  unfold infer_root_update; split <;> rfl

/-- The root-name inference step leaves the spawn trace unchanged. -/
theorem infer_root_update_spawned (c0 : String) (st : RunState) :
    (infer_root_update c0 st).spawned = st.spawned := by
  unfold infer_root_update; split <;> rfl

/-- The root-name inference step never clears an already known root name. -/
theorem infer_root_update_keeps (c0 : String) (st : RunState) (n : String)
    (h : st.created_directory_name = some n) :
    (infer_root_update c0 st).created_directory_name = some n := by
  unfold infer_root_update
  rw [if_neg]
  · exact h
  · intro hc; rw [h] at hc; exact Option.noConfusion hc.2

/-- If the pattern does not occur in the list, the scan finds nothing. -/
theorem findOcc_eq_none (pat : List Char) :
    ∀ l : List Char, isInfixOfL pat l = false → findOcc pat l = none := by
  intro l
  induction l with
  | nil => intro h; simp only [isInfixOfL] at h; simp [findOcc, h]
  | cons c cs ih =>
    intro h
    simp only [isInfixOfL, Bool.or_eq_false_iff] at h
    simp [findOcc, h.1, ih h.2]

/-- Python strip is idempotent. -/
theorem strip_idem (l : List Char) : strip (strip l) = strip l := by
  have h2 : (strip l).dropWhile Char.isWhitespace = strip l := by
    cases hs : strip l with
    | nil => simp
    | cons c cs =>
      obtain ⟨t, ht⟩ :=
        List.rdropWhile_prefix Char.isWhitespace (l.dropWhile Char.isWhitespace)
      have hst : strip l ++ t = l.dropWhile Char.isWhitespace := ht
      have hd : l.dropWhile Char.isWhitespace = c :: (cs ++ t) := by
        rw [← hst, hs]; rfl
      have h? : (l.dropWhile Char.isWhitespace).head? = some c := by rw [hd]; rfl
      have hw := List.head?_dropWhile_not Char.isWhitespace l
      rw [h?] at hw
      have hc : Char.isWhitespace c = false := by simpa using hw
      simp [List.dropWhile_cons, hc]
  calc strip (strip l)
      = List.rdropWhile Char.isWhitespace ((strip l).dropWhile Char.isWhitespace) := rfl
    _ = List.rdropWhile Char.isWhitespace
          (List.rdropWhile Char.isWhitespace (l.dropWhile Char.isWhitespace)) := by
        rw [h2]; rfl
    _ = List.rdropWhile Char.isWhitespace (l.dropWhile Char.isWhitespace) :=
        List.rdropWhile_idempotent _ _
    _ = strip l := rfl

/-- A predicate preserved by every step of a fold is preserved by the
fold. -/
theorem foldl_invariant {σ α : Type} (f : σ → α → σ) (P : σ → Prop)
    (hstep : ∀ s a, P s → P (f s a)) :
    ∀ (l : List α) (s : σ), P s → P (l.foldl f s) := by
  intro l
  induction l with
  | nil => intro s h; simpa using h
  | cons a as ih => intro s h; exact ih _ (hstep s a h)

/-! ### Claim C1 -/

/-- Claim C1: for every dispatched shell command whose captured stderr is
non-empty, `run_commands` appends exactly one entry of the exact form
`Error in step i: stderr` followed by a newline, where `i` is the 1-based
step index, regardless of the stdout content (the source never inspects
exit codes), and the fold over the remaining commands continues from the
updated state. -/
theorem c1_stderr_logged (env : Env) (i : Nat) (c0 command : String) (st : RunState)
    (e out : String) (rest : List String)
    (hcd : startsWithStr command "cd " = false)
    (hg1 : guardHit "mkdir" st.created_directory_name command = false)
    (hg2 : guardHit "cd" st.created_directory_name command = false)
    (hpy : hasSubstr command "python" = false ∨ env.confirm command = true)
    (hexec : env.exec command = ExecResult.ok e out)
    (he : e ≠ "") :
    (step_command env i c0 st command).errors
      = st.errors ++ "Error in step " ++ toString (i + 1) ++ ": " ++ e ++ "\n"
    ∧ (step_command env i c0 st command).spawned = st.spawned ++ [command]
    ∧ List.foldl (step_command env i c0) st (command :: rest)
      = List.foldl (step_command env i c0) (step_command env i c0 st command) rest := by
  have hrun : run_command env command = ((some e, some out), [command]) := by
    unfold run_command
    rcases hpy with h | h
    · rw [if_neg (by simp [h]), hexec]
    · rw [if_neg (by simp [h]), hexec]
  refine ⟨?_, ?_, rfl⟩
  · unfold step_command
    rw [if_neg (by simp [hcd]), if_neg (by simp [hg1]), if_neg (by simp [hg2])]
    rw [infer_root_update_errors]
    simp only [hrun]
    rw [if_pos (by simp [errTruthy, he])]
    simp [optStr]
  · unfold step_command
    rw [if_neg (by simp [hcd]), if_neg (by simp [hg1]), if_neg (by simp [hg2])]
    rw [infer_root_update_spawned]
    simp only [hrun]
    rw [if_pos (by simp [errTruthy, he])]

/-- Witness for C1 at a concrete dispatched command with stderr text. -/
theorem c1_witness :
    (step_command envErr 0 "ls" (initState none "/w") "ls").errors = "Error in step 1: boom\n"
    ∧ (step_command envErr 0 "ls" (initState none "/w") "ls").spawned = ["ls"] := by
  have h := c1_stderr_logged envErr 0 "ls" "ls" (initState none "/w") "boom" "out" []
    rfl rfl rfl (Or.inl rfl) rfl (by decide)
  exact ⟨h.1.trans (by decide), h.2.1.trans (by decide)⟩

/-! ### Claim C2 -/

/-- Counterexample to claim C2: a block whose first line is empty is
classified as a file block even though the step title contains `bash`, so
the stated if-and-only-if fails (line 168 also requires the first line to
be truthy). -/
theorem c2_counterexample :
    is_command_block "**Step 1: bash**" (delete_first_line "\nls -la").2 = false
    ∧ (delete_first_line "\nls -la").2 = some ""
    ∧ hasSubstr (lowerStr "**Step 1: bash**") "bash" = true := by decide

/-- Amended claim C2: a fenced block is classified as a command block if
and only if its first line exists and is non-empty AND the lowercased
step title or the lowercased first line contains `bash`; every other
block is a file block. -/
theorem c2_classification (step_title : String) (keyword : Option String) :
    is_command_block step_title keyword = true
      ↔ ∃ k, keyword = some k ∧ k ≠ ""
          ∧ (hasSubstr (lowerStr step_title) "bash" = true
             ∨ hasSubstr (lowerStr k) "bash" = true) := by
  cases keyword with
  | none => simp [is_command_block]
  | some k =>
    simp only [is_command_block, Bool.and_eq_true, decide_eq_true_eq, Bool.or_eq_true,
      Option.some.injEq]
    constructor
    · rintro ⟨hne, hb⟩
      exact ⟨k, rfl, hne, hb⟩
    · rintro ⟨k2, hk, hne, hb⟩
      cases hk
      exact ⟨hne, hb⟩

/-! ### Claim C3 -/

/-- Claim C3: a command starting with `cd ` updates the tracked directory
to the join of the previous tracked directory with the whitespace-trimmed
text after `cd `, applies the same directory to the host process, and is
never dispatched: the spawn trace and the error log are untouched. -/
theorem c3_cd_local (env : Env) (i : Nat) (c0 command : String) (st : RunState)
    (hcd : startsWithStr command "cd " = true) :
    (step_command env i c0 st command).current_directory
      = pathJoin st.current_directory (stripStr (dropStr command 3))
    ∧ (step_command env i c0 st command).host_cwd
      = pathJoin st.current_directory (stripStr (dropStr command 3))
    ∧ (step_command env i c0 st command).spawned = st.spawned
    ∧ (step_command env i c0 st command).errors = st.errors := by
  have hdata : ∃ t, command.data = 'c' :: 'd' :: ' ' :: t := by
    have hp : ("cd ".data) <+: command.data := by
      have := hcd
      unfold startsWithStr at this
      exact List.isPrefixOf_iff_prefix.mp this
    obtain ⟨t, ht⟩ := hp
    exact ⟨t, ht.symm⟩
  obtain ⟨t, ht⟩ := hdata
  have hstrip : stripStr (dropStr command 2) = stripStr (dropStr command 3) := by
    unfold stripStr dropStr strOfList
    rw [ht]
    simp only [List.drop_succ_cons, List.drop_zero]
    have : strip (' ' :: t) = strip t := by
      unfold strip
      rw [List.dropWhile_cons, if_pos (show ' '.isWhitespace = true by decide)]
    rw [this]
  unfold step_command
  rw [if_pos (by simp [hcd])]
  refine ⟨?_, ?_, ?_, ?_⟩
  · rw [infer_root_update_dir]; simp [hstrip]
  · rw [infer_root_update_host]; simp [hstrip]
  · rw [infer_root_update_spawned]
  · rw [infer_root_update_errors]

/-- Witness for C3: a concrete `cd` command updates the directory without
spawning anything. -/
theorem c3_witness :
    (step_command envOk 0 "cd demo" (initState none "/w") "cd demo").current_directory = "/w/demo"
    ∧ (step_command envOk 0 "cd demo" (initState none "/w") "cd demo").spawned = [] := by
  have h := c3_cd_local envOk 0 "cd demo" "cd demo" (initState none "/w") (by decide)
  exact ⟨h.1.trans (by decide), h.2.2.1.trans (by decide)⟩

/-! ### Claim C4 -/

/-- Counterexample to claim C4: when the first extracted command is a
`cd` command, the root name is inferred from it (the first command of the
current command list) even though it is never dispatched; the first
dispatched command is `mkdir p`, from which the claimed rule would infer
`p`, yet the run returns root name `cd a`. -/
theorem c4_counterexample :
    (run_commands_state envOk ["**Step 1: bash**"] [["bash\ncd a\nmkdir p\n"]] none "/w").spawned
      = ["mkdir p"]
    ∧ (run_commands_state envOk ["**Step 1: bash**"] [["bash\ncd a\nmkdir p\n"]] none
        "/w").created_directory_name = some "cd a"
    ∧ stripStr (strOfList (stripMkdir ("mkdir p" : String).data)) = "p"
    ∧ ("cd a" : String) ≠ "p" := by decide

/-- The root-name inference fires when the flag is clear and the name is
unknown. -/
theorem infer_root_update_sets (c0 : String) (st : RunState) (hx : st.x = 0)
    (hn : st.created_directory_name = none) :
    (infer_root_update c0 st).created_directory_name
      = some (stripStr (strOfList (stripMkdir c0.data)))
    ∧ (infer_root_update c0 st).x = 1 := by
  unfold infer_root_update
  rw [if_pos ⟨hx, hn⟩]
  exact ⟨rfl, rfl⟩

/-- Neither guard can fire while the root name is unknown. -/
theorem guardHit_none (pat command : String) : guardHit pat none command = false := by
  simp [guardHit]

/-- A known root name survives one command iteration. -/
theorem step_command_keeps_name (env : Env) (i : Nat) (c0 command : String) (st : RunState)
    (n : String) (h : st.created_directory_name = some n) :
    (step_command env i c0 st command).created_directory_name = some n := by
  unfold step_command
  split
  · exact infer_root_update_keeps _ _ _ h
  · split
    · exact h
    · split
      · exact h
      · apply infer_root_update_keeps
        dsimp only
        split <;> exact h

/-- A known root name survives one snippet iteration. -/
theorem step_snippet_keeps_name (env : Env) (i : Nat) (title : String) (st : RunState)
    (snippet : String) (n : String) (h : st.created_directory_name = some n) :
    (step_snippet env i title st snippet).created_directory_name = some n := by
  unfold step_snippet
  split
  · split
    · exact h
    · exact foldl_invariant _ (fun s => s.created_directory_name = some n)
        (fun s a hs => step_command_keeps_name env i _ a s n hs) _ st h
  · split
    · exact h
    · split
      · exact h
      · exact h

/-- A seeded root name is returned unchanged by the whole run. -/
theorem run_commands_keeps_name (env : Env) (titles : List String)
    (snips : List (List String)) (n : String) (cwd0 : String) :
    (run_commands env titles snips (some n) cwd0).2 = some n := by
  unfold run_commands run_commands_state
  exact foldl_invariant
    (fun st p => ((snips.get? p.1).getD []).foldl (step_snippet env p.1 p.2) st)
    (fun s => s.created_directory_name = some n)
    (fun (s : RunState) (p : Nat × String) hs =>
      foldl_invariant (step_snippet env p.1 p.2)
        (fun s2 => s2.created_directory_name = some n)
        (fun s2 a hs2 => step_snippet_keeps_name env p.1 p.2 s2 a n hs2)
        ((snips.get? p.1).getD []) s hs)
    titles.enum (initState (some n) cwd0) rfl

/-- Amended claim C4: the project root name is set at most once per run.
When it is unknown and the flag is clear, processing any command of a
command list (dispatched or handled locally as a `cd`) sets it to the
FIRST command of that list with the literal `mkdir` deleted and the
result trimmed; once known it is never changed, and a seeded name is
returned unchanged alongside the error log. -/
theorem c4_root_once (env : Env) (i : Nat) (c0 command : String) (st : RunState) :
    (st.x = 0 → st.created_directory_name = none →
       (step_command env i c0 st command).created_directory_name
         = some (stripStr (strOfList (stripMkdir c0.data)))
       ∧ (step_command env i c0 st command).x = 1)
    ∧ (∀ n, st.created_directory_name = some n →
       (step_command env i c0 st command).created_directory_name = some n)
    ∧ (∀ (titles : List String) (snips : List (List String)) (n cwd0 : String),
       (run_commands env titles snips (some n) cwd0).2 = some n) := by
  refine ⟨?_, ?_, ?_⟩
  · intro hx hn
    have hg1 : guardHit "mkdir" st.created_directory_name command = false := by
      rw [hn]; exact guardHit_none _ _
    have hg2 : guardHit "cd" st.created_directory_name command = false := by
      rw [hn]; exact guardHit_none _ _
    unfold step_command
    by_cases hc : startsWithStr command "cd " = true
    · rw [if_pos (by simp [hc])]
      exact infer_root_update_sets _ _ hx hn
    · rw [if_neg (by simpa using hc), if_neg (by simp [hg1]), if_neg (by simp [hg2])]
      apply infer_root_update_sets
      · dsimp only
        split <;> exact hx
      · dsimp only
        split <;> exact hn
  · exact fun n h => step_command_keeps_name env i c0 command st n h
  · exact fun titles snips n cwd0 => run_commands_keeps_name env titles snips n cwd0

/-- Witness for C4 at a concrete first command. -/
theorem c4_witness :
    (step_command envOk 0 "mkdir demo" (initState none "/w") "mkdir demo").created_directory_name
      = some "demo" := by
  have h := (c4_root_once envOk 0 "mkdir demo" "mkdir demo" (initState none "/w")).1 rfl rfl
  exact h.1.trans (by decide)

/-! ### Claim C5 -/

/-- Counterexample to claim C5: the source uses the FIRST path-like or
`name.ext`-like token of the step title, not the last one. -/
theorem c5_counterexample :
    extract_filename "**Step 9: copy a.py to b.py**" = some "a.py"
    ∧ claim_last_filename "**Step 9: copy a.py to b.py**" = some "b.py"
    ∧ ("a.py" : String) ≠ "b.py" := by decide

/-- The search returns the first of all pattern matches. -/
theorem fnMatches_head : ∀ (fuel : Nat) (l : List Char) (b : Bool), l.length < fuel →
    (fnMatches fuel b l).head? = fnSearch b l := by
  intro fuel
  induction fuel with
  | zero => intro l b h; exact absurd h (Nat.not_lt_zero _)
  | succ f ih =>
    intro l b h
    cases l with
    | nil => rfl
    | cons c cs =>
      have hcs : cs.length < f := Nat.lt_of_succ_lt_succ h
      simp only [fnMatches, fnSearch]
      by_cases hb : (b != isWordChar c) = true
      · simp only [if_pos hb]
        cases hm : tryMatch (c :: cs) with
        | some m => simp
        | none => simpa using ih cs (isWordChar c) hcs
      · simp only [if_neg hb]
        exact ih cs (isWordChar c) hcs

/-- Amended claim C5: the target filename of a file block is the FIRST
path-like or `name.ext`-like token of the step title (the head of the
list of all matches), and a file block whose title yields no such token
leaves the state untouched: no file is written and no error is logged. -/
theorem c5_first_filename (text : String) :
    extract_filename text
      = ((fnMatches (text.data.length + 1) false text.data).head?).map strOfList
    ∧ ∀ (env : Env) (i : Nat) (st : RunState) (snippet : String),
        is_command_block text (delete_first_line snippet).2 = false →
        extract_filename text = none →
        step_snippet env i text st snippet = st := by
  constructor
  · unfold extract_filename
    rw [fnMatches_head (text.data.length + 1) text.data false (Nat.lt_succ_self _)]
  · intro env i st snippet hb hf
    unfold step_snippet
    rw [if_neg (by simp [hb]), hf]

/-- Witness for C5: a title with no extractable filename drops the block
silently. -/
theorem c5_witness :
    step_snippet envOk 2 "**Step 3: do things**" (initState none "/w") "python\nx = 1\n"
      = initState none "/w" :=
  (c5_first_filename "**Step 3: do things**").2 envOk 2 (initState none "/w")
    "python\nx = 1\n" (by decide) (by decide)

/-! ### Claim C6 -/

/-- Counterexample to claim C6: a command block (the title contains
`bash`) whose text contains no `bash` marker yields NO commands at all;
there is no fallback that uses its non-blank lines verbatim. -/
theorem c6_counterexample :
    is_command_block "**Step 1: bash**" (delete_first_line "sh\nls -la\n").2 = true
    ∧ extract_bash_commands "sh\nls -la\n" = []
    ∧ (["ls -la"] : List String) ≠ [] := by decide

/-- If the pattern is a prefix of a non-empty list, the scan finds it at
position zero. -/
theorem findOcc_prefix (pat l : List Char) (h : pat.isPrefixOf l = true) (hl : l ≠ []) :
    findOcc pat l = some 0 := by
  cases l with
  | nil => exact absurd rfl hl
  | cons c cs => unfold findOcc; rw [if_pos h]

/-- On newline-free text the lazy capture extends to the end. -/
theorem stopLen_no_nl : ∀ cs : List Char, '\n' ∉ cs → stopLen cs = cs.length := by
  intro cs
  induction cs with
  | nil => intro _; rfl
  | cons c cs2 ih =>
    intro h
    have hc : c ≠ '\n' := fun hr => h (by rw [hr]; exact List.mem_cons_self _ _)
    unfold stopLen
    rw [if_neg (by simp [blankLookahead, hc]), if_neg (fun hr => hc hr.1),
      ih (fun hm => h (List.mem_cons_of_mem _ hm))]
    simp [Nat.add_comm]

/-- Newline-free text splits into a single segment. -/
theorem splitNl_no_nl : ∀ l : List Char, '\n' ∉ l → splitNl l = [l] := by
  intro l
  induction l with
  | nil => intro _; rfl
  | cons c cs ih =>
    intro h
    have hc : c ≠ '\n' := fun hr => h (by rw [hr]; exact List.mem_cons_self _ _)
    unfold splitNl
    rw [if_neg hc, ih (fun hm => h (List.mem_cons_of_mem _ hm))]

/-- The bash scan of an empty text yields nothing, for any fuel. -/
theorem bashMatches_nil : ∀ f : Nat, bashMatches f [] = [] := by
  intro f
  cases f with
  | zero => rfl
  | succ f2 => rfl

/-- Amended claim C6: commands come only from regions opened by the
substring `bash` followed by a newline (each region closed at the first
blank line or at the end of text, its lines stripped and blank lines
dropped); a block not containing that substring yields no commands, and
every returned command is non-blank and trimmed; in particular a block
consisting of `bash`, a newline and one non-blank newline-free line
yields exactly that line, trimmed. -/
theorem c6_bash_regions :
    (∀ s : String, hasSubstr s "bash\n" = false → extract_bash_commands s = [])
    ∧ (∀ (s c : String), c ∈ extract_bash_commands s → c ≠ "" ∧ stripStr c = c)
    ∧ (∀ w : String, '\n' ∉ w.data → strip w.data ≠ [] →
       extract_bash_commands ("bash\n" ++ w) = [stripStr w]) := by
  refine ⟨?_, ?_, ?_⟩
  · intro s h
    have hnone : findOcc bashMarker s.data = none := findOcc_eq_none _ _ h
    unfold extract_bash_commands
    simp [bashMatches, hnone]
  · intro s c hc
    unfold extract_bash_commands at hc
    rw [List.mem_map] at hc
    obtain ⟨x, hxmem, rfl⟩ := hc
    rw [List.mem_flatMap] at hxmem
    obtain ⟨m, hm, hx⟩ := hxmem
    rw [List.mem_filter] at hx
    obtain ⟨hx1, hx2⟩ := hx
    rw [List.mem_map] at hx1
    obtain ⟨y, hy, rfl⟩ := hx1
    constructor
    · intro he
      have hnil : strip y = [] := by
        have := congrArg String.data he
        simpa [strOfList] using this
      rw [hnil] at hx2
      simp at hx2
    · show strOfList (strip (strip y)) = strOfList (strip y)
      rw [strip_idem]
  · intro w hnl hne
    have hdata : ("bash\n" ++ w).data = bashMarker ++ w.data := by
      rw [String.data_append]
      rfl
    cases hw : w.data with
    | nil => exact absurd (by rw [hw]; rfl) hne
    | cons c cs =>
      have hcsnl : '\n' ∉ cs := fun hm => hnl (by rw [hw]; exact List.mem_cons_of_mem _ hm)
      have hfind : findOcc bashMarker ("bash\n" ++ w).data = some 0 := by
        rw [hdata]
        apply findOcc_prefix
        · exact List.isPrefixOf_iff_prefix.mpr ⟨w.data, rfl⟩
        · simp [bashMarker]
      have hdrop : (("bash\n" ++ w).data).drop (0 + 5) = c :: cs := by
        rw [hdata, List.drop_left' (by rfl), hw]
      have hstop : stopLen cs = cs.length := stopLen_no_nl cs hcsnl
      have hlen : ("bash\n" ++ w).data.length = 5 + (c :: cs).length := by
        rw [hdata, List.length_append, hw]
        rfl
      have hdrop2 : (("bash\n" ++ w).data).drop (0 + 5 + 1 + cs.length) = [] := by
        apply List.drop_eq_nil_of_le
        rw [hlen, List.length_cons]
        omega
      have hmatch : ∀ f : Nat, bashMatches (f + 1) ("bash\n" ++ w).data = [c :: cs] := by
        intro f
        rw [bashMatches, hfind]
        dsimp only
        rw [hdrop]
        dsimp only
        rw [hstop, hdrop2, bashMatches_nil, List.take_of_length_le (by rw [List.length_cons]; omega)]
      have hsplit : splitlines (c :: cs) = [c :: cs] := by
        unfold splitlines
        rw [if_neg, splitNl_no_nl _ (by
          intro hm
          rcases List.mem_cons.mp hm with h1 | h2
          · exact hnl (by rw [hw, ← h1]; exact List.mem_cons_self _ _)
          · exact hcsnl h2)]
        intro hlast
        exact hnl (by rw [hw]; exact List.mem_of_getLast?_eq_some hlast)
      have hne2 : (!(strip (c :: cs)).isEmpty) = true := by
        rw [hw] at hne
        cases hemp : (strip (c :: cs)).isEmpty with
        | false => rfl
        | true => exact absurd (List.isEmpty_iff.mp hemp) hne
      unfold extract_bash_commands
      rw [hmatch (("bash\n" ++ w).data.length)]
      simp only [List.flatMap_cons, List.flatMap_nil, List.append_nil, hsplit,
        List.map_cons, List.map_nil, List.filter_cons, hne2]
      simp only [if_true, List.filter_nil, List.map_cons, List.map_nil]
      unfold stripStr
      rw [hw]

/-- Witness for C6: a block without the bash marker yields no commands,
and a one-line bash region yields exactly its trimmed line. -/
theorem c6_witness :
    extract_bash_commands "echo ok" = []
    ∧ extract_bash_commands "bash\nmkdir demo" = ["mkdir demo"] := by
  refine ⟨c6_bash_regions.1 "echo ok" (by decide), ?_⟩
  have h := c6_bash_regions.2.2 "mkdir demo" (by decide) (by decide)
  exact h.trans (by decide)

/-! ### Claim C7 -/

/-- Claim C7: a file block with an extractable filename is written to the
join of the tracked directory and that filename, with content equal to
the block text after its first line (the language tag) is removed; a
failing write appends an error entry tagged with the 1-based step index;
in both cases the runner returns a state and execution continues. -/
theorem c7_file_write (env : Env) (i : Nat) (title snippet : String) (st : RunState)
    (f : String)
    (hblock : is_command_block title (delete_first_line snippet).2 = false)
    (hf : extract_filename title = some f) :
    (env.writeOk (pathJoin st.current_directory f) = true →
       step_snippet env i title st snippet
         = { st with files := st.files ++ [(pathJoin st.current_directory f,
              (delete_first_line snippet).1)] })
    ∧ (env.writeOk (pathJoin st.current_directory f) = false →
       step_snippet env i title st snippet
         = { st with errors := st.errors ++ "Error in step " ++ toString (i + 1)
              ++ ": Failed to create file " ++ f ++ "\n" }) := by
  constructor
  · intro hw
    unfold step_snippet
    rw [if_neg (by simp [hblock]), hf]
    simp [hw]
  · intro hw
    unfold step_snippet
    rw [if_neg (by simp [hblock]), hf]
    simp [hw]

/-- Witness for C7 at the scenario of the specification: a step titled
with `hello.py` and a `python`-tagged block produces the file at the join
of the tracked directory with that name, containing the block text minus
its first line. -/
theorem c7_witness :
    (step_snippet envOk 1 "**Step 2: write hello.py**" (initState none "/w")
      "python\nprint(1)\n").files = [("/w/hello.py", "print(1)")] := by
  have h := (c7_file_write envOk 1 "**Step 2: write hello.py**" "python\nprint(1)\n"
    (initState none "/w") "hello.py" (by decide) (by decide)).1 rfl
  rw [h]
  rfl

/-! ### Claim C8 -/

/-- Counterexample to claim C8: the body of a parsed step CAN contain the
title text of the next parsed step, when that text also occurs earlier
on a line that does not start a marker match; moreover a marker present
in the text but not followed by a newline produces NO pair, so the
number of pairs can be smaller than the number of markers. -/
theorem c8_counterexample :
    extract_steptitles "**Step 1: a**\nx **Step 2: b**\n**Step 2: b**\nz\n"
      = (["**Step 1: a**", "**Step 2: b**"], ["x **Step 2: b**", "z"])
    ∧ hasSubstr "x **Step 2: b**" "**Step 2: b**" = true
    ∧ extract_steptitles "**Step 1: a**" = ([], [])
    ∧ hasSubstr "**Step 1: a**" "**Step " = true := by decide

/-- Amended claim C8: the parser returns whitespace-trimmed title and
body pairs; a document that does not contain the marker prefix yields the
empty sequence, a valid outcome on which the runner returns an empty
error log; but a step body may contain a copy of the next title text, and
only markers the pattern can complete produce a pair. -/
theorem c8_steps :
    (∀ text : String, hasSubstr text "**Step " = false →
       extract_steptitles text = ([], [])
       ∧ ∀ (env : Env) (cwd0 : String), final_command env cwd0 text = "")
    ∧ (∀ (text t : String), t ∈ (extract_steptitles text).1 → stripStr t = t)
    ∧ (∀ (text d : String), d ∈ (extract_steptitles text).2 → stripStr d = d) := by
  refine ⟨?_, ?_, ?_⟩
  · intro text h
    have hnone : findOcc stepMarker text.data = none := findOcc_eq_none _ _ h
    have h1 : extract_steptitles text = ([], []) := by
      unfold extract_steptitles
      simp [stepMatches, hnone]
    refine ⟨h1, ?_⟩
    intro env cwd0
    unfold final_command run_commands run_commands_state
    rw [h1]
    rfl
  · intro text t ht
    unfold extract_steptitles at ht
    rw [List.mem_map] at ht
    obtain ⟨m, hm, rfl⟩ := ht
    show strOfList (strip (strip m.1)) = strOfList (strip m.1)
    rw [strip_idem]
  · intro text d hd
    unfold extract_steptitles at hd
    rw [List.mem_map] at hd
    obtain ⟨m, hm, rfl⟩ := hd
    show strOfList (strip (strip m.2)) = strOfList (strip m.2)
    rw [strip_idem]

/-- Witness for C8: a document with no markers parses to nothing and the
run produces an empty error log. -/
theorem c8_witness :
    extract_steptitles "no steps here" = ([], [])
    ∧ final_command envOk "/w" "no steps here" = "" := by
  have h := c8_steps.1 "no steps here" (by decide)
  exact ⟨h.1, h.2 envOk "/w"⟩

/-! ### Claim C9 -/

/-- Claim C9: a command containing the case-sensitive substring `python`
is spawned only after an affirmative confirmation; when the operator
declines, `run_command` returns no stderr and no output and spawns
nothing, and the runner records no error and no spawn for it. -/
theorem c9_python_confirm (env : Env) (i : Nat) (c0 command : String) (st : RunState)
    (hpy : hasSubstr command "python" = true)
    (hno : env.confirm command = false) :
    run_command env command = ((none, none), [])
    ∧ (step_command env i c0 st command).errors = st.errors
    ∧ (step_command env i c0 st command).spawned = st.spawned
    ∧ (∀ (env2 : Env) (c2 : String), hasSubstr c2 "python" = true →
        (run_command env2 c2).2 ≠ [] → env2.confirm c2 = true) := by
  have hrun : run_command env command = ((none, none), []) := by
    unfold run_command
    rw [if_pos (by simp [hpy, hno])]
  refine ⟨hrun, ?_, ?_, ?_⟩
  · unfold step_command
    split
    · rw [infer_root_update_errors]
    · split
      · rfl
      · split
        · rfl
        · rw [infer_root_update_errors]
          dsimp only
          simp [hrun, errTruthy]
  · unfold step_command
    split
    · rw [infer_root_update_spawned]
    · split
      · rfl
      · split
        · rfl
        · rw [infer_root_update_spawned]
          dsimp only
          simp [hrun, errTruthy]
  · intro env2 c2 hp hs
    by_cases hcf : env2.confirm c2 = true
    · exact hcf
    · have hcf2 : env2.confirm c2 = false := by
        revert hcf; cases env2.confirm c2 <;> simp
      exfalso
      apply hs
      unfold run_command
      rw [if_pos (by simp [hp, hcf2])]

/-- Witness for C9: a declined python command is a no-op. -/
theorem c9_witness :
    run_command envNo "python app.py" = ((none, none), [])
    ∧ (step_command envNo 0 "python app.py" (initState none "/w") "python app.py").errors
        = ""
    ∧ (step_command envNo 0 "python app.py" (initState none "/w") "python app.py").spawned
        = [] := by
  have h := c9_python_confirm envNo 0 "python app.py" "python app.py" (initState none "/w")
    (by decide) rfl
  exact ⟨h.1, h.2.1.trans rfl, h.2.2.1.trans rfl⟩

/-! ### Claim C10 -/

/-- Claim C10: the parser returns title and detail lists of equal length,
the snippet extractor returns exactly one snippet list per detail, and
hence in the `final_command` pipeline the snippet list indexed by any
title position exists. -/
theorem c10_lengths (text : String) (ds : List String) :
    (extract_steptitles text).1.length = (extract_steptitles text).2.length
    ∧ (extract_code_snippets ds).length = ds.length
    ∧ (extract_code_snippets (extract_steptitles text).2).length
        = (extract_steptitles text).1.length := by
  refine ⟨?_, ?_, ?_⟩ <;> simp [extract_steptitles, extract_code_snippets]
